import Mathlib

/-!
Shallow embedding of `s3_path_wrangler/paths.py` (class `S3Path`).

Python strings are modelled as `List Char` (`PyStr`).  Python string
methods used by the source are modelled character by character:
`str.lstrip(chars)` / `str.rstrip(chars)` / `str.strip(chars)` remove the
runs of characters drawn from the given character SET (this is the
semantics of Python's `lstrip` with a string argument, which the source
relies on in `path.lstrip("s3://")`), `str.split("/")` and
`"/".join(...)` are `pySplit` / `pyJoin`, and `str.startswith` is
`pyStartsWith`.  Exceptions are modelled with `Except S3Error`.
-/

/-- Python `str`, modelled as its list of characters. -/
abbrev PyStr := List Char

/-- Shorthand to turn a Lean string literal into a `PyStr`. -/
def str (s : String) : PyStr := s.data

/-- The exception kinds raised by `paths.py`: `InvalidPathError`,
`UnknownBucketError`, `InvalidBucketError` (all subclasses of
`ValueError`) and the plain `ValueError` raised by `__truediv__`. -/
inductive S3Error where
  | invalidPath
  | unknownBucket
  | invalidBucket
  | valueError
  deriving DecidableEq

/-- Python `s.lstrip(cs)`: removes the longest leading run of characters
that belong to the character set `cs`. -/
def pyLstripChars (cs : List Char) : PyStr → PyStr
  | [] => []
  | c :: rest => if c ∈ cs then pyLstripChars cs rest else c :: rest

/-- Python `s.rstrip(cs)`: removes the longest trailing run of characters
that belong to the character set `cs`. -/
def pyRstripChars (cs : List Char) : PyStr → PyStr
  | [] => []
  | c :: rest =>
    match pyRstripChars cs rest with
    | [] => if c ∈ cs then [] else [c]
    | r => c :: r

/-- Python `s.strip(cs)`: strips the character set from both ends. -/
def pyStrip (cs : List Char) (s : PyStr) : PyStr :=
  pyRstripChars cs (pyLstripChars cs s)

/-- Python `s.split(sep)` for a one-character separator.  On the empty
string it returns `[""]`, like Python. -/
def pySplit (sep : Char) : PyStr → List PyStr
  | [] => [[]]
  | c :: rest =>
    let r := pySplit sep rest
    if c = sep then [] :: r
    else (c :: r.headD []) :: r.tail

/-- Python `sep.join(parts)` for a one-character separator. -/
def pyJoin (sep : Char) : List PyStr → PyStr
  | [] => []
  | [x] => x
  | x :: y :: t => x ++ sep :: pyJoin sep (y :: t)

/-- Python `s.startswith(pat)` (first argument is the pattern). -/
def pyStartsWith : PyStr → PyStr → Bool
  | [], _ => true
  | _ :: _, [] => false
  | p :: ps, c :: cs => p == c && pyStartsWith ps cs

/-- Python `str.isspace` on a single character, restricted to the
whitespace code points relevant here (ASCII whitespace, the `\x1c`-`\x1f`
separators and `\x85`). -/
def isSpaceChar (c : Char) : Bool :=
  c == ' ' || c == '\t' || c == '\n' || c == '\r' || c == '\x0b' ||
    c == '\x0c' || c == '\x1c' || c == '\x1d' || c == '\x1e' ||
    c == '\x1f' || c == '\x85'

/-- Python `s.isspace()`: true iff `s` is non-empty and all of its
characters are whitespace. -/
def pyIsSpace (s : PyStr) : Bool :=
  !s.isEmpty && s.all isSpaceChar

/-- `S3Path._PREFIX`, the literal string `"s3://"`. -/
def s3Pfx : PyStr := ['s', '3', ':', '/', '/']

/-- The character SET of `S3Path._PREFIX`, which is what
`path.lstrip(self._PREFIX)` actually strips by. -/
def pfxChars : List Char := ['s', '3', ':', '/']

/-- One character of the `DNS_NAME_REGEX` character class
`[a-zA-Z0-9-]`. -/
def isBucketChar (c : Char) : Bool :=
  c.isAlpha || c.isDigit || c == '-'

/-- Does the first character of `s` equal `c`? -/
def firstIs (s : PyStr) (c : Char) : Bool :=
  s.head? == some c

/-- Does the last character of `s` equal `c`? -/
def lastIs (s : PyStr) (c : Char) : Bool :=
  s.getLast? == some c

/-- `re.fullmatch(DNS_NAME_REGEX, bucket)` as a predicate, where
`DNS_NAME_REGEX = r"(?![0-9]+$)(?!-)[a-zA-Z0-9-]{,63}(?<!-)"`:
the whole string is at most 63 characters drawn from `[a-zA-Z0-9-]`,
is not entirely made of digits, and neither starts nor ends with a
hyphen.  `S3Path._validate_bucket` raises `InvalidBucketError` exactly
when this predicate is false. -/
def valid_bucket (b : PyStr) : Bool :=
  decide (b.length ≤ 63) && b.all isBucketChar &&
    !(!b.isEmpty && b.all Char.isDigit) &&
    !(firstIs b '-') && !(lastIs b '-')

/-- `S3Path._is_valid_part`: `bool(part) and not part.isspace() and "/"
not in part`. -/
def _is_valid_part (part : PyStr) : Bool :=
  !part.isEmpty && !(pyIsSpace part) && !(part.contains '/')

/-- `S3Path._validate_parts` succeeds (does not raise `InvalidPathError`)
exactly when this predicate is true: the list is non-empty and every
part is valid. -/
def _validate_parts (parts : List PyStr) : Bool :=
  !parts.isEmpty && parts.all _is_valid_part

/-- The value type: `S3Path._parts` and `S3Path._is_absolute`. -/
structure S3Path where
  parts : List PyStr
  is_absolute : Bool
  deriving DecidableEq

/-- Python `path.startswith("/")`. -/
def startsWithSlash (s : PyStr) : Bool :=
  decide (s.head? = some '/')

/-- `S3Path.__init__`: parsing a string.

Faithful to the source, including the order of checks and the
character-set semantics of `path.lstrip(self._PREFIX)`:
a leading `/` raises `InvalidPathError`; an `s3://`-prefixed string is
marked absolute and has the leading run of the characters
`s`, `3`, `:`, `/` removed; the remainder is stripped of outer slashes
and split on `/`; the parts are validated, and for absolute paths the
first part is validated as a bucket name. -/
def parsePath (path : PyStr) : Except S3Error S3Path :=
  if startsWithSlash path then .error .invalidPath
  else
    let isAbs := pyStartsWith s3Pfx path
    let parts :=
      pySplit '/' (pyStrip ['/'] (if isAbs then pyLstripChars pfxChars path else path))
    if _validate_parts parts then
      if isAbs && !valid_bucket (parts.headD []) then .error .invalidBucket
      else .ok ⟨parts, isAbs⟩
    else .error .invalidPath

namespace S3Path

/-- `S3Path.from_parts`: validates the parts (and, when absolute, the
bucket), renders the corresponding string and re-parses it. -/
def from_parts (parts : List PyStr) (is_absolute : Bool) : Except S3Error S3Path :=
  if _validate_parts parts then
    if is_absolute && !valid_bucket (parts.headD []) then .error .invalidBucket
    else parsePath ((if is_absolute then s3Pfx else []) ++ pyJoin '/' parts)
  else .error .invalidPath

/-- `S3Path.to_absolute`. -/
def to_absolute (p : S3Path) : Except S3Error S3Path :=
  if p.is_absolute then .ok p
  else from_parts p.parts true

/-- `S3Path.with_bucket`.  Note the source's asymmetry: for an absolute
path the first part is replaced by the ORIGINAL (unstripped) `bucket`
argument; for a relative path the stripped bucket is prepended.
(`new_parts[0] = bucket` on the copied parts list is modelled as
`bucket :: p.parts.tail`; the two agree on every non-empty parts list,
and parts lists are never empty for constructed paths.) -/
def with_bucket (p : S3Path) (bucket : PyStr) : Except S3Error S3Path :=
  let stripped_bucket := pyStrip ['/'] bucket
  if !valid_bucket stripped_bucket then .error .invalidBucket
  else
    from_parts
      (if p.is_absolute then bucket :: p.parts.tail else stripped_bucket :: p.parts)
      true

/-- The `S3Path.bucket` property: `parts[0]` of an absolute path,
`UnknownBucketError` on a relative one. -/
def bucket (p : S3Path) : Except S3Error PyStr :=
  if !p.is_absolute then .error .unknownBucket
  else .ok (p.parts.headD [])

/-- The `S3Path.key` property: `"/".join(parts[1:])` of an absolute
path, `UnknownBucketError` on a relative one. -/
def key (p : S3Path) : Except S3Error PyStr :=
  if p.is_absolute then .ok (pyJoin '/' p.parts.tail)
  else .error .unknownBucket

/-- The `S3Path.name` property: the last part. -/
def name (p : S3Path) : PyStr :=
  p.parts.getLastD []

/-- The `S3Path.parent` property: `None` for a single-part path,
otherwise `from_parts(parts[:-1], is_absolute)`. -/
def parent (p : S3Path) : Except S3Error (Option S3Path) :=
  if p.parts.length = 1 then .ok none
  else Except.map some (from_parts p.parts.dropLast p.is_absolute)

/-- `S3Path.__truediv__` with a string argument: strips the leading run
of `/` characters (`other.lstrip("/")`), parses the remainder, and
appends its parts. -/
def truediv_str (p : S3Path) (other : PyStr) : Except S3Error S3Path :=
  match parsePath (pyLstripChars ['/'] other) with
  | .error e => .error e
  | .ok other_path => from_parts (p.parts ++ other_path.parts) p.is_absolute

/-- `S3Path.__truediv__` with an `S3Path` argument: raises `ValueError`
when the argument is absolute, otherwise appends its parts. -/
def truediv_path (p : S3Path) (other : S3Path) : Except S3Error S3Path :=
  if other.is_absolute then .error .valueError
  else from_parts (p.parts ++ other.parts) p.is_absolute

/-- `S3Path.__repr__`: `"s3://" + "/".join(parts)` when absolute,
`"/".join(parts)` otherwise. -/
def s3repr (p : S3Path) : PyStr :=
  (if p.is_absolute then s3Pfx else []) ++ pyJoin '/' p.parts

/-- `S3Path.__eq__` with a string right-hand side: the string is parsed
first (so parsing errors propagate), then parts and flags are
compared. -/
def eqStr (p : S3Path) (other : PyStr) : Except S3Error Bool :=
  Except.map
    (fun q => (p.parts == q.parts) && (p.is_absolute == q.is_absolute))
    (parsePath other)

end S3Path

/-- Iterated application of `parent`, following the `.ok (some _)`
results: `parentIter n p` applies `parent` `n` times. -/
def parentIter : Nat → S3Path → Except S3Error (Option S3Path)
  | 0, p => .ok (some p)
  | n + 1, p =>
    match S3Path.parent p with
    | .ok (some q) => parentIter n q
    | .ok none => .ok none
    | .error e => .error e

/-- Is the first character of `s` outside the character set stripped by
`path.lstrip("s3://")`?  (True for the empty string.) -/
def firstCharOk : PyStr → Bool
  | [] => true
  | c :: _ => !(pfxChars.contains c)

deriving instance DecidableEq for Except

/-- No two consecutive `/` characters occur in the string.  Rendered
forms of valid parts lists have this property, while any string that
begins with `s3://` does not; it separates the two parser branches. -/
def noDoubleSlash : PyStr → Bool
  | [] => true
  | [_] => true
  | a :: b :: t => !(a == '/' && b == '/') && noDoubleSlash (b :: t)

/-- The data invariant stated by the spec: the parts list is non-empty,
every part is valid, and the first part of an absolute path is a valid
bucket name. -/
def pathInvB (p : S3Path) : Bool :=
  _validate_parts p.parts && (!p.is_absolute || valid_bucket (p.parts.headD []))

/-- The invariant actually maintained by the code for reachable values:
`pathInvB`, plus the fact that the first part of an absolute path never
begins with one of the characters `s`, `3`, `:`, `/` (the parser's
character-set strip guarantees this). -/
def reachInvB (p : S3Path) : Bool :=
  pathInvB p && (!p.is_absolute || firstCharOk (p.parts.headD []))

/-! ### Lemmas about the string primitives -/

theorem lstrip_head_not_mem (cs : List Char) :
    ∀ (s : PyStr) (c : Char), (pyLstripChars cs s).head? = some c → c ∉ cs := by
  intro s
  induction s with
  | nil => intro c h; simp [pyLstripChars] at h
  | cons a t ih =>
    intro c h
    by_cases ha : a ∈ cs
    · exact ih c (by simpa [pyLstripChars, ha] using h)
    · simp [pyLstripChars, ha] at h
      rw [← h]
      exact ha

theorem lstrip_append_of_mem (cs : List Char) (b : PyStr) :
    ∀ a : PyStr, (∀ c ∈ a, c ∈ cs) → pyLstripChars cs (a ++ b) = pyLstripChars cs b := by
  intro a
  induction a with
  | nil => intro; rfl
  | cons x t ih =>
    intro h
    have hx : x ∈ cs := h x (by simp)
    simp only [List.cons_append, pyLstripChars, if_pos hx]
    exact ih (fun c hc => h c (List.mem_cons_of_mem _ hc))

theorem lstrip_eq_self (cs : List Char) (s : PyStr)
    (h : ∀ c, s.head? = some c → c ∉ cs) : pyLstripChars cs s = s := by
  cases s with
  | nil => rfl
  | cons a t => simp [pyLstripChars, h a rfl]

theorem rstrip_cons_of_ne (cs : List Char) (x : Char) (s : PyStr)
    (h : pyRstripChars cs s ≠ []) :
    pyRstripChars cs (x :: s) = x :: pyRstripChars cs s := by
  cases hr : pyRstripChars cs s with
  | nil => exact absurd hr h
  | cons y ys => rw [pyRstripChars, hr]

theorem rstrip_concat (cs : List Char) (c : Char) (h : c ∉ cs) :
    ∀ a : PyStr, pyRstripChars cs (a ++ [c]) = a ++ [c] := by
  intro a
  induction a with
  | nil => simp [pyRstripChars, h]
  | cons x a ih =>
    rw [List.cons_append, rstrip_cons_of_ne cs x (a ++ [c]) (by rw [ih]; simp), ih]

theorem rstrip_cases (cs : List Char) (a : Char) (s : PyStr) :
    pyRstripChars cs (a :: s) = [] ∨ ∃ w, pyRstripChars cs (a :: s) = a :: w := by
  rw [pyRstripChars]
  cases hr : pyRstripChars cs s with
  | nil =>
    by_cases ha : a ∈ cs
    · left; simp [ha]
    · right; exact ⟨[], by simp [ha]⟩
  | cons y ys => right; exact ⟨y :: ys, by simp⟩

theorem split_of_not_mem (sep : Char) :
    ∀ s : PyStr, sep ∉ s → pySplit sep s = [s] := by
  intro s
  induction s with
  | nil => intro; rfl
  | cons c t ih =>
    intro h
    have hc : ¬ c = sep := by rintro rfl; exact h (List.mem_cons_self _ _)
    have ht : sep ∉ t := fun hm => h (List.mem_cons_of_mem _ hm)
    simp [pySplit, hc, ih ht]

theorem split_append_sep (sep : Char) (r : PyStr) :
    ∀ x : PyStr, sep ∉ x → pySplit sep (x ++ sep :: r) = x :: pySplit sep r := by
  intro x
  induction x with
  | nil => intro; simp [pySplit]
  | cons c t ih =>
    intro h
    have hc : ¬ c = sep := by rintro rfl; exact h (List.mem_cons_self _ _)
    have ht : sep ∉ t := fun hm => h (List.mem_cons_of_mem _ hm)
    simp [pySplit, hc, ih ht]

theorem split_join (sep : Char) :
    ∀ P : List PyStr, P ≠ [] → (∀ p ∈ P, sep ∉ p) →
      pySplit sep (pyJoin sep P) = P := by
  intro P
  induction P with
  | nil => intro h; exact absurd rfl h
  | cons x t ih =>
    intro _ h
    cases t with
    | nil =>
      rw [show pyJoin sep [x] = x from rfl]
      exact split_of_not_mem sep x (h x (by simp))
    | cons y t2 =>
      rw [show pyJoin sep (x :: y :: t2) = x ++ sep :: pyJoin sep (y :: t2) from rfl]
      rw [split_append_sep sep _ x (h x (by simp))]
      rw [ih (by simp) (fun p hp => h p (List.mem_cons_of_mem _ hp))]

theorem join_head (sep : Char) (x : PyStr) (t : List PyStr) (hx : x ≠ []) :
    (pyJoin sep (x :: t)).head? = x.head? := by
  cases t with
  | nil => rfl
  | cons y t2 =>
    cases x with
    | nil => exact absurd rfl hx
    | cons c x2 => rfl

theorem exists_concat {α : Type} :
    ∀ l : List α, l ≠ [] → ∃ a c, l = a ++ [c] ∧ c ∈ l := by
  intro l
  induction l with
  | nil => intro h; exact absurd rfl h
  | cons x t ih =>
    intro _
    cases t with
    | nil => exact ⟨[], x, rfl, by simp⟩
    | cons y t2 =>
      obtain ⟨a, c, hac, hm⟩ := ih (by simp)
      exact ⟨x :: a, c, by rw [show (x :: a) ++ [c] = x :: (a ++ [c]) from rfl, ← hac],
        List.mem_cons_of_mem _ hm⟩

theorem join_concat (sep : Char) :
    ∀ (t : List PyStr) (x : PyStr), (∀ p ∈ x :: t, p ≠ [] ∧ sep ∉ p) →
      ∃ a c, pyJoin sep (x :: t) = a ++ [c] ∧ c ≠ sep := by
  intro t
  induction t with
  | nil =>
    intro x h
    obtain ⟨hne, hns⟩ := h x (by simp)
    obtain ⟨a, c, hac, hmem⟩ := exists_concat x hne
    exact ⟨a, c, by rw [show pyJoin sep [x] = x from rfl, hac],
      fun hc => hns (hc ▸ hmem)⟩
  | cons y t2 ih =>
    intro x h
    obtain ⟨a, c, hac, hcs⟩ := ih y (fun p hp => h p (List.mem_cons_of_mem _ hp))
    refine ⟨x ++ sep :: a, c, ?_, hcs⟩
    rw [show pyJoin sep (x :: y :: t2) = x ++ sep :: pyJoin sep (y :: t2) from rfl, hac]
    simp

theorem ndsl_cons (c : Char) (t : PyStr) (h : c ≠ '/') :
    noDoubleSlash (c :: t) = noDoubleSlash t := by
  cases t with
  | nil => rfl
  | cons b t2 => simp [noDoubleSlash, h]

theorem ndsl_slash_cons (t : PyStr) (h : ∀ c, t.head? = some c → c ≠ '/') :
    noDoubleSlash ('/' :: t) = noDoubleSlash t := by
  cases t with
  | nil => rfl
  | cons b t2 => simp [noDoubleSlash, h b rfl]

theorem ndsl_append (x r : PyStr) (hx : ∀ c ∈ x, c ≠ '/')
    (hr : noDoubleSlash r = true) : noDoubleSlash (x ++ r) = true := by
  induction x with
  | nil => simpa using hr
  | cons c t ih =>
    rw [List.cons_append, ndsl_cons c _ (hx c (by simp))]
    exact ih (fun d hd => hx d (List.mem_cons_of_mem _ hd))

theorem ndsl_join :
    ∀ (t : List PyStr) (x : PyStr), (∀ p ∈ x :: t, p ≠ [] ∧ ('/' : Char) ∉ p) →
      noDoubleSlash (pyJoin '/' (x :: t)) = true := by
  intro t
  induction t with
  | nil =>
    intro x h
    rw [show pyJoin '/' [x] = x from rfl, ← List.append_nil x]
    exact ndsl_append x [] (fun c hc he => (h x (by simp)).2 (he ▸ hc)) rfl
  | cons y t2 ih =>
    intro x h
    rw [show pyJoin '/' (x :: y :: t2) = x ++ '/' :: pyJoin '/' (y :: t2) from rfl]
    apply ndsl_append
    · exact fun c hc he => (h x (by simp)).2 (he ▸ hc)
    · have hy := h y (by simp)
      rw [ndsl_slash_cons]
      · exact ih y (fun p hp => h p (List.mem_cons_of_mem _ hp))
      · intro c hc he
        rw [join_head '/' y t2 hy.1] at hc
        exact hy.2 (he ▸ List.mem_of_mem_head? hc)

theorem pyStartsWith_append (a b : PyStr) : pyStartsWith a (a ++ b) = true := by
  induction a with
  | nil => rfl
  | cons c t ih => simp [pyStartsWith, ih]

theorem pyStartsWith_dest :
    ∀ (a s : PyStr), pyStartsWith a s = true → ∃ t, s = a ++ t := by
  intro a
  induction a with
  | nil => exact fun s _ => ⟨s, rfl⟩
  | cons c ta ih =>
    intro s h
    cases s with
    | nil => simp [pyStartsWith] at h
    | cons d ts =>
      simp only [pyStartsWith, Bool.and_eq_true, beq_iff_eq] at h
      obtain ⟨t, ht⟩ := ih ts h.2
      exact ⟨t, by rw [ht, h.1]; rfl⟩

theorem pfx_not_ndsl (s : PyStr) (h : pyStartsWith s3Pfx s = true) :
    noDoubleSlash s = false := by
  obtain ⟨t, ht⟩ := pyStartsWith_dest s3Pfx s h
  subst ht
  rw [show s3Pfx ++ t = 's' :: '3' :: ':' :: '/' :: '/' :: t from rfl]
  rw [ndsl_cons 's' _ (by decide), ndsl_cons '3' _ (by decide),
    ndsl_cons ':' _ (by decide)]
  simp [noDoubleSlash]

/-! ### Validation destructors and the parse/render correspondence -/

theorem contains_false_iff (p : PyStr) (c : Char) :
    p.contains c = false ↔ c ∉ p := by
  simp

theorem validate_dest (P : List PyStr) (h : _validate_parts P = true) :
    P ≠ [] ∧ ∀ p ∈ P, p ≠ [] ∧ ('/' : Char) ∉ p := by
  unfold _validate_parts at h
  rw [Bool.and_eq_true] at h
  obtain ⟨h1, h2⟩ := h
  constructor
  · intro he; subst he; simp at h1
  · intro p hp
    have hv := (List.all_eq_true.mp h2) p hp
    unfold _is_valid_part at hv
    rw [Bool.and_eq_true, Bool.and_eq_true] at hv
    constructor
    · intro he; subst he; simp at hv
    · have hcont := hv.2
      rw [Bool.not_eq_true'] at hcont
      exact (contains_false_iff p '/').mp hcont

theorem parse_render (P : List PyStr) (abs : Bool)
    (hv : _validate_parts P = true)
    (hb : abs = true → valid_bucket (P.headD []) = true)
    (hc : abs = true → firstCharOk (P.headD []) = true) :
    parsePath ((if abs then s3Pfx else []) ++ pyJoin '/' P) = .ok ⟨P, abs⟩ := by
  obtain ⟨hne, hall⟩ := validate_dest P hv
  obtain ⟨x, t, rfl⟩ : ∃ x t, P = x :: t := by
    cases P with
    | nil => exact absurd rfl hne
    | cons x t => exact ⟨x, t, rfl⟩
  obtain ⟨c0, x2, hx⟩ : ∃ c0 x2, x = c0 :: x2 := by
    cases hxe : x with
    | nil => exact absurd hxe (hall x (by simp)).1
    | cons c0 x2 => exact ⟨c0, x2, rfl⟩
  have hxne : x ≠ [] := (hall x (by simp)).1
  have hJhead : (pyJoin '/' (x :: t)).head? = some c0 := by
    rw [join_head '/' x t hxne, hx]; rfl
  have hc0s : c0 ≠ '/' := by
    intro he
    exact (hall x (by simp)).2 (he ▸ (by rw [hx]; simp : c0 ∈ x))
  obtain ⟨a, d, hJad, hds⟩ :=
    join_concat '/' t x (fun p hp => ⟨(hall p hp).1, (hall p hp).2⟩)
  have hstrip : pyStrip ['/'] (pyJoin '/' (x :: t)) = pyJoin '/' (x :: t) := by
    unfold pyStrip
    rw [lstrip_eq_self ['/'] _ (fun e he => by
      rw [hJhead] at he
      injection he with he
      subst he
      simp [hc0s])]
    rw [hJad]
    exact rstrip_concat ['/'] d (by simp [hds]) a
  have hsplit : pySplit '/' (pyJoin '/' (x :: t)) = x :: t :=
    split_join '/' (x :: t) hne (fun p hp => (hall p hp).2)
  cases abs with
  | false =>
    have hsws : startsWithSlash (pyJoin '/' (x :: t)) = false := by
      simp [startsWithSlash, hJhead, hc0s]
    have hnd : noDoubleSlash (pyJoin '/' (x :: t)) = true :=
      ndsl_join t x (fun p hp => ⟨(hall p hp).1, (hall p hp).2⟩)
    have habs : pyStartsWith s3Pfx (pyJoin '/' (x :: t)) = false := by
      cases hq : pyStartsWith s3Pfx (pyJoin '/' (x :: t)) with
      | false => rfl
      | true => rw [pfx_not_ndsl _ hq] at hnd; cases hnd
    simp only [if_neg (by simp : ¬ (false : Bool) = true), List.nil_append,
      parsePath, hsws, habs, Bool.false_eq_true, if_false, hstrip, hsplit, hv,
      if_true, Bool.false_and, Bool.not_eq_true]
  | true =>
    have hsws : startsWithSlash (s3Pfx ++ pyJoin '/' (x :: t)) = false := rfl
    have habs : pyStartsWith s3Pfx (s3Pfx ++ pyJoin '/' (x :: t)) = true :=
      pyStartsWith_append _ _
    have hc0p : c0 ∉ pfxChars := by
      have := hc rfl
      rw [show (x :: t).headD [] = x from rfl, hx] at this
      simp only [firstCharOk, Bool.not_eq_true'] at this
      exact (contains_false_iff pfxChars c0).mp this
    have hlst : pyLstripChars pfxChars (s3Pfx ++ pyJoin '/' (x :: t)) =
        pyJoin '/' (x :: t) := by
      rw [lstrip_append_of_mem pfxChars _ s3Pfx (by decide)]
      exact lstrip_eq_self pfxChars _ (fun e he => by
        rw [hJhead] at he
        injection he with he
        subst he
        exact hc0p)
    have hbx : valid_bucket x = true := hb rfl
    simp only [if_pos rfl, parsePath, hsws, Bool.false_eq_true, if_false, habs,
      if_true, hlst, hstrip, hsplit, hv, List.headD_cons, hbx, Bool.not_true,
      Bool.and_false]

theorem from_parts_eq (P : List PyStr) (abs : Bool)
    (hv : _validate_parts P = true)
    (hb : abs = true → valid_bucket (P.headD []) = true)
    (hc : abs = true → firstCharOk (P.headD []) = true) :
    S3Path.from_parts P abs = .ok ⟨P, abs⟩ := by
  unfold S3Path.from_parts
  rw [if_pos hv]
  have hguard : (abs && !valid_bucket (P.headD [])) = false := by
    cases abs with
    | false => rfl
    | true => rw [hb rfl]; rfl
  simp only [hguard, Bool.false_eq_true, if_false]
  exact parse_render P abs hv hb hc

theorem split_head_cons (sep c : Char) (t : PyStr) (h : ¬ c = sep) :
    (pySplit sep (c :: t)).headD [] = c :: ((pySplit sep t).headD []) := by
  simp [pySplit, h]

theorem reach_weak (p : S3Path) (h : reachInvB p = true) : pathInvB p = true := by
  unfold reachInvB at h
  rw [Bool.and_eq_true] at h
  exact h.1

theorem reach_dest (p : S3Path) (h : reachInvB p = true) :
    _validate_parts p.parts = true ∧
      (p.is_absolute = true → valid_bucket (p.parts.headD []) = true ∧
        firstCharOk (p.parts.headD []) = true) := by
  unfold reachInvB pathInvB at h
  rw [Bool.and_eq_true, Bool.and_eq_true] at h
  obtain ⟨⟨h1, h2⟩, h3⟩ := h
  refine ⟨h1, fun ha => ⟨?_, ?_⟩⟩
  · rw [ha] at h2; simpa using h2
  · rw [ha] at h3; simpa using h3

theorem reach_build (p : S3Path)
    (h1 : _validate_parts p.parts = true)
    (h2 : p.is_absolute = true → valid_bucket (p.parts.headD []) = true)
    (h3 : p.is_absolute = true → firstCharOk (p.parts.headD []) = true) :
    reachInvB p = true := by
  unfold reachInvB pathInvB
  cases ha : p.is_absolute with
  | false =>
    simp only [Bool.not_false, Bool.true_or, Bool.and_true]
    exact h1
  | true =>
    simp only [Bool.not_true, Bool.false_or, Bool.and_eq_true]
    exact ⟨⟨h1, h2 ha⟩, h3 ha⟩

theorem first_char_of_stripped (t : PyStr)
    (hval : _validate_parts
      (pySplit '/' (pyStrip ['/'] (pyLstripChars pfxChars t))) = true) :
    firstCharOk
      ((pySplit '/' (pyStrip ['/'] (pyLstripChars pfxChars t))).headD []) = true := by
  have hhd := lstrip_head_not_mem pfxChars t
  generalize hu : pyLstripChars pfxChars t = u at hval hhd ⊢
  cases u with
  | nil => exact absurd hval (by decide)
  | cons c u2 =>
    have hcp : c ∉ pfxChars := hhd c rfl
    have hcs : ¬ c = '/' := fun he => hcp (by rw [he]; decide)
    have hl : pyLstripChars ['/'] (c :: u2) = c :: u2 :=
      lstrip_eq_self ['/'] _ (fun e he => by
        injection he with he
        subst he
        simp [hcs])
    unfold pyStrip at hval ⊢
    rw [hl] at hval ⊢
    rcases rstrip_cases ['/'] c u2 with hz | ⟨w, hz⟩
    · rw [hz] at hval
      exact absurd hval (by decide)
    · rw [hz] at hval ⊢
      rw [split_head_cons '/' c w hcs]
      simp only [firstCharOk, Bool.not_eq_true']
      exact (contains_false_iff pfxChars c).mpr hcp

theorem parsePath_inv (t : PyStr) (p : S3Path) (h : parsePath t = .ok p) :
    reachInvB p = true := by
  simp only [parsePath] at h
  by_cases hsw : startsWithSlash t = true
  · rw [if_pos hsw] at h
    exact Except.noConfusion h
  rw [if_neg hsw] at h
  cases hA : pyStartsWith s3Pfx t with
  | false =>
    rw [hA] at h
    simp only [Bool.false_eq_true, if_false, Bool.false_and] at h
    by_cases hval : _validate_parts (pySplit '/' (pyStrip ['/'] t)) = true
    · rw [if_pos hval] at h
      injection h with h
      subst h
      exact reach_build _ hval (fun ha => by simp at ha) (fun ha => by simp at ha)
    · rw [if_neg hval] at h
      exact Except.noConfusion h
  | true =>
    rw [hA] at h
    simp only [Bool.true_and, eq_self_iff_true, if_true] at h
    by_cases hval : _validate_parts
        (pySplit '/' (pyStrip ['/'] (pyLstripChars pfxChars t))) = true
    · rw [if_pos hval] at h
      by_cases hvb : valid_bucket
          ((pySplit '/' (pyStrip ['/'] (pyLstripChars pfxChars t))).headD []) = true
      · rw [hvb] at h
        simp only [Bool.not_true, Bool.false_eq_true, if_false] at h
        injection h with h
        subst h
        exact reach_build _ hval (fun _ => hvb) (fun _ => first_char_of_stripped t hval)
      · rw [Bool.not_eq_true] at hvb
        rw [hvb] at h
        simp only [Bool.not_false, eq_self_iff_true, if_true] at h
        exact Except.noConfusion h
    · rw [if_neg hval] at h
      exact Except.noConfusion h

theorem from_parts_inv (P : List PyStr) (a : Bool) (q : S3Path)
    (h : S3Path.from_parts P a = .ok q) : reachInvB q = true := by
  unfold S3Path.from_parts at h
  by_cases hval : _validate_parts P = true
  · rw [if_pos hval] at h
    by_cases hg : (a && !valid_bucket (P.headD [])) = true
    · rw [if_pos hg] at h
      exact Except.noConfusion h
    · rw [if_neg hg] at h
      exact parsePath_inv _ q h
  · rw [if_neg hval] at h
    exact Except.noConfusion h

/-! ### Claim C1 -/

/-- C1, as stated, is false on the code: with valid parts
`["some", "file.txt"]` and a valid bucket name `"some"`,
`from_parts(["some", "file.txt"], True)` yields the parts
`["ome", "file.txt"]`, because the re-parse strips the leading `s` of
`"some"` along with the `s3://` characters. -/
theorem from_parts_overstrip_cex :
    _validate_parts [str "some", str "file.txt"] = true ∧
    valid_bucket (str "some") = true ∧
    S3Path.from_parts [str "some", str "file.txt"] true =
      .ok ⟨[str "ome", str "file.txt"], true⟩ ∧
    ¬ S3Path.from_parts [str "some", str "file.txt"] true =
        .ok ⟨[str "some", str "file.txt"], true⟩ := by
  decide

/-- C1 (amended): for every segment list `S` of valid parts and flag `a`
such that, when `a` is true, `S[0]` passes bucket validation AND does not
begin with one of the characters `s`, `3`, `:`, `/` stripped by the
parser, `from_parts(S, a)` succeeds with parts `S` and `is_absolute`
equal to `a`. -/
theorem from_parts_parts_roundtrip (S : List PyStr) (a : Bool)
    (hv : _validate_parts S = true)
    (hb : a = true → valid_bucket (S.headD []) = true)
    (hc : a = true → firstCharOk (S.headD []) = true) :
    S3Path.from_parts S a = .ok ⟨S, a⟩ :=
  from_parts_eq S a hv hb hc

/-- Witness for C1 at `S = ["bucket", "file.txt"]`, `a = true`. -/
theorem from_parts_parts_roundtrip_wit :
    S3Path.from_parts [str "bucket", str "file.txt"] true =
      .ok ⟨[str "bucket", str "file.txt"], true⟩ :=
  from_parts_parts_roundtrip [str "bucket", str "file.txt"] true (by decide)
    (fun _ => by decide) (fun _ => by decide)

/-! ### Claim C2 -/

/-- C2, as stated, is false on the code: `parse("some/relative/path")`
followed by `to_absolute()` succeeds but yields segments
`["ome", "relative", "path"]` and bucket `"ome"`, not `"some"` — the
leading `s` is eaten by the character-set strip in the re-parse. -/
theorem to_absolute_overstrip_cex :
    parsePath (str "some/relative/path") =
      .ok ⟨[str "some", str "relative", str "path"], false⟩ ∧
    S3Path.to_absolute ⟨[str "some", str "relative", str "path"], false⟩ =
      .ok ⟨[str "ome", str "relative", str "path"], true⟩ ∧
    S3Path.bucket ⟨[str "ome", str "relative", str "path"], true⟩ =
      .ok (str "ome") ∧
    ¬ str "ome" = str "some" := by
  decide

/-- C2 (amended): for every path satisfying the data invariant:
an absolute path is returned unchanged by `to_absolute`; a relative path
whose first segment is not a valid bucket name fails with
`InvalidBucketError`; and a relative path whose first segment is a valid
bucket name and does not begin with one of the parser-stripped
characters `s`, `3`, `:`, `/` is converted to an absolute path with an
identical segment list. -/
theorem to_absolute_spec (p : S3Path) (hp : pathInvB p = true) :
    (p.is_absolute = true → S3Path.to_absolute p = .ok p) ∧
    (p.is_absolute = false → valid_bucket (p.parts.headD []) = false →
      S3Path.to_absolute p = .error .invalidBucket) ∧
    (p.is_absolute = false → valid_bucket (p.parts.headD []) = true →
      firstCharOk (p.parts.headD []) = true →
      S3Path.to_absolute p = .ok ⟨p.parts, true⟩) := by
  have hval : _validate_parts p.parts = true := by
    unfold pathInvB at hp
    rw [Bool.and_eq_true] at hp
    exact hp.1
  refine ⟨?_, ?_, ?_⟩
  · intro ha
    simp only [S3Path.to_absolute, ha, eq_self_iff_true, if_true]
  · intro ha hvb
    simp only [S3Path.to_absolute, ha, Bool.false_eq_true, if_false]
    unfold S3Path.from_parts
    rw [if_pos hval, hvb]
    simp
  · intro ha hvb hfc
    simp only [S3Path.to_absolute, ha, Bool.false_eq_true, if_false]
    exact from_parts_eq p.parts true hval (fun _ => hvb) (fun _ => hfc)

/-- Witness for C2 at the relative path `["bucket"]`. -/
theorem to_absolute_spec_wit :
    S3Path.to_absolute ⟨[str "bucket"], false⟩ = .ok ⟨[str "bucket"], true⟩ :=
  (to_absolute_spec ⟨[str "bucket"], false⟩ (by decide)).2.2 rfl (by decide)
    (by decide)

/-! ### Claim C3 -/

/-- C3, as stated, is false on the code: joining the doubly-slashed
string `"//file.txt"` onto `parse("s3://bucket/folder")` does NOT fail;
`lstrip("/")` removes ALL leading slashes, so the join succeeds. -/
theorem truediv_double_slash_cex :
    parsePath (str "s3://bucket/folder") =
      .ok ⟨[str "bucket", str "folder"], true⟩ ∧
    S3Path.truediv_str ⟨[str "bucket", str "folder"], true⟩ (str "//file.txt") =
      .ok ⟨[str "bucket", str "folder", str "file.txt"], true⟩ := by
  decide

/-- C3 (amended): the join operator with a string strips ALL leading `/`
characters (prepending a `/` to the fragment never changes the result),
and in particular a single leading slash is stripped, as in the spec's
example `parse("s3://bucket/folder") / "/file.txt"`. -/
theorem truediv_str_strips_all_slashes :
    (∀ (p : S3Path) (s : PyStr),
      S3Path.truediv_str p ('/' :: s) = S3Path.truediv_str p s) ∧
    S3Path.truediv_str ⟨[str "bucket", str "folder"], true⟩ (str "/file.txt") =
      .ok ⟨[str "bucket", str "folder", str "file.txt"], true⟩ := by
  constructor
  · intro p s
    unfold S3Path.truediv_str
    rw [show pyLstripChars ['/'] ('/' :: s) = pyLstripChars ['/'] s from by
      simp [pyLstripChars]]
  · decide

/-! ### Claim C4 -/

/-- C4: every `S3Path` produced by a public operation (parsing,
`from_parts`, `to_absolute`, `with_bucket`, `parent`, join with a string
or with a path) satisfies the data invariant `pathInvB`: non-empty parts
list, every part non-empty, not whitespace-only and slash-free, and for
absolute paths a first part that passes bucket validation.
(`to_absolute` can return its argument unchanged, so there the argument
is assumed to satisfy the invariant itself.) -/
theorem public_ops_invariant :
    (∀ t p, parsePath t = .ok p → pathInvB p = true) ∧
    (∀ P a p, S3Path.from_parts P a = .ok p → pathInvB p = true) ∧
    (∀ p q, pathInvB p = true → S3Path.to_absolute p = .ok q →
      pathInvB q = true) ∧
    (∀ p b q, S3Path.with_bucket p b = .ok q → pathInvB q = true) ∧
    (∀ p q, S3Path.parent p = .ok (some q) → pathInvB q = true) ∧
    (∀ p s q, S3Path.truediv_str p s = .ok q → pathInvB q = true) ∧
    (∀ p r q, S3Path.truediv_path p r = .ok q → pathInvB q = true) := by
  refine ⟨?_, ?_, ?_, ?_, ?_, ?_, ?_⟩
  · exact fun t p h => reach_weak p (parsePath_inv t p h)
  · exact fun P a p h => reach_weak p (from_parts_inv P a p h)
  · intro p q hp h
    unfold S3Path.to_absolute at h
    by_cases ha : p.is_absolute = true
    · rw [if_pos ha] at h
      injection h with h
      subst h
      exact hp
    · rw [if_neg ha] at h
      exact reach_weak q (from_parts_inv _ _ q h)
  · intro p b q h
    simp only [S3Path.with_bucket] at h
    by_cases hg : (!valid_bucket (pyStrip ['/'] b)) = true
    · rw [if_pos hg] at h
      exact Except.noConfusion h
    · rw [if_neg hg] at h
      exact reach_weak q (from_parts_inv _ _ q h)
  · intro p q h
    unfold S3Path.parent at h
    by_cases hlen : p.parts.length = 1
    · rw [if_pos hlen] at h
      injection h with h
      exact Option.noConfusion h
    · rw [if_neg hlen] at h
      cases hfp : S3Path.from_parts p.parts.dropLast p.is_absolute with
      | error e =>
        rw [hfp] at h
        exact Except.noConfusion h
      | ok r =>
        rw [hfp] at h
        injection h with h
        injection h with h
        subst h
        exact reach_weak _ (from_parts_inv _ _ _ hfp)
  · intro p s q h
    unfold S3Path.truediv_str at h
    cases hpp : parsePath (pyLstripChars ['/'] s) with
    | error e =>
      rw [hpp] at h
      exact Except.noConfusion h
    | ok r =>
      rw [hpp] at h
      exact reach_weak q (from_parts_inv _ _ q h)
  · intro p r q h
    unfold S3Path.truediv_path at h
    by_cases ha : r.is_absolute = true
    · rw [if_pos ha] at h
      exact Except.noConfusion h
    · rw [if_neg ha] at h
      exact reach_weak q (from_parts_inv _ _ q h)

/-- Witness for C4: the invariant holds for the parse of
`"s3://bucket/x"`. -/
theorem public_ops_invariant_wit :
    pathInvB ⟨[str "bucket", str "x"], true⟩ = true :=
  public_ops_invariant.1 (str "s3://bucket/x") ⟨[str "bucket", str "x"], true⟩
    (by decide)

/-! ### Claim C5 -/

/-- C5: on a relative path both `bucket` and `key` raise
`UnknownBucketError`; on an absolute path `bucket` returns `parts[0]`,
`key` returns `"/".join(parts[1:])`, and neither raises. -/
theorem bucket_key_spec (p : S3Path) (b : PyStr) (rest : List PyStr)
    (hp : p.parts = b :: rest) :
    (p.is_absolute = false →
      S3Path.bucket p = .error .unknownBucket ∧
      S3Path.key p = .error .unknownBucket) ∧
    (p.is_absolute = true →
      S3Path.bucket p = .ok b ∧ S3Path.key p = .ok (pyJoin '/' rest)) := by
  constructor
  · intro ha
    refine ⟨?_, ?_⟩
    · simp only [S3Path.bucket, ha, Bool.not_false, eq_self_iff_true, if_true]
    · simp only [S3Path.key, ha, Bool.false_eq_true, if_false]
  · intro ha
    refine ⟨?_, ?_⟩
    · simp only [S3Path.bucket, ha, Bool.not_true, Bool.false_eq_true, if_false,
        hp, List.headD_cons]
    · simp only [S3Path.key, ha, eq_self_iff_true, if_true, hp, List.tail_cons]

/-- Witness for C5 at the absolute path `s3://bucket/f`. -/
theorem bucket_key_spec_wit :
    S3Path.bucket ⟨[str "bucket", str "f"], true⟩ = .ok (str "bucket") ∧
    S3Path.key ⟨[str "bucket", str "f"], true⟩ = .ok (pyJoin '/' [str "f"]) :=
  (bucket_key_spec ⟨[str "bucket", str "f"], true⟩ (str "bucket") [str "f"]
    rfl).2 rfl

/-! ### Claim C6 -/

theorem dropLast_validate (l : List PyStr) (hlen : 2 ≤ l.length)
    (hv : _validate_parts l = true) : _validate_parts l.dropLast = true := by
  unfold _validate_parts at hv ⊢
  rw [Bool.and_eq_true] at hv ⊢
  constructor
  · cases he : l.dropLast.isEmpty with
    | false => rfl
    | true =>
      have hnil := List.isEmpty_iff.mp he
      have h2 := List.length_dropLast l
      rw [hnil] at h2
      simp only [List.length_nil] at h2
      omega
  · rw [List.all_eq_true] at hv ⊢
    exact fun p hp => hv.2 p ((List.dropLast_sublist l).subset hp)

theorem dropLast_headD (l : List PyStr) (hlen : 2 ≤ l.length) :
    l.dropLast.headD [] = l.headD [] := by
  cases l with
  | nil => simp at hlen
  | cons a t =>
    cases t with
    | nil => simp at hlen
    | cons b t2 => rfl

theorem take_one_dropLast (l : List PyStr) (hlen : 2 ≤ l.length) :
    l.dropLast.take 1 = l.take 1 := by
  cases l with
  | nil => simp at hlen
  | cons a t =>
    cases t with
    | nil => simp at hlen
    | cons b t2 => rfl

theorem parent_drop (p : S3Path) (hp : reachInvB p = true)
    (hlen : 2 ≤ p.parts.length) :
    S3Path.parent p = .ok (some ⟨p.parts.dropLast, p.is_absolute⟩) := by
  obtain ⟨hv, habs⟩ := reach_dest p hp
  unfold S3Path.parent
  rw [if_neg (by omega)]
  rw [from_parts_eq p.parts.dropLast p.is_absolute
    (dropLast_validate _ hlen hv)
    (fun ha => by rw [dropLast_headD _ hlen]; exact (habs ha).1)
    (fun ha => by rw [dropLast_headD _ hlen]; exact (habs ha).2)]
  rfl

theorem parent_keeps_inv (p q : S3Path) (h : S3Path.parent p = .ok (some q)) :
    reachInvB q = true := by
  unfold S3Path.parent at h
  by_cases hlen : p.parts.length = 1
  · rw [if_pos hlen] at h
    injection h with h
    exact Option.noConfusion h
  · rw [if_neg hlen] at h
    cases hfp : S3Path.from_parts p.parts.dropLast p.is_absolute with
    | error e =>
      rw [hfp] at h
      exact Except.noConfusion h
    | ok r =>
      rw [hfp] at h
      injection h with h
      injection h with h
      subst h
      exact from_parts_inv _ _ _ hfp

theorem parentIter_aux :
    ∀ (n : Nat) (p : S3Path), reachInvB p = true → p.parts.length = n + 1 →
      parentIter n p = .ok (some ⟨p.parts.take 1, p.is_absolute⟩) := by
  intro n
  induction n with
  | zero =>
    intro p hp hlen
    cases p with
    | mk parts flag =>
      have hlen1 : parts.length ≤ 1 := by simpa using Nat.le_of_eq hlen
      rw [parentIter, List.take_of_length_le hlen1]
  | succ n ih =>
    intro p hp hlen
    have hlen2 : 2 ≤ p.parts.length := by omega
    have hpar := parent_drop p hp hlen2
    have hinv : reachInvB (S3Path.mk p.parts.dropLast p.is_absolute) = true :=
      parent_keeps_inv p (S3Path.mk p.parts.dropLast p.is_absolute) hpar
    have hlen3 : (⟨p.parts.dropLast, p.is_absolute⟩ : S3Path).parts.length =
        n + 1 := by
      simp only [List.length_dropLast]
      omega
    rw [parentIter, hpar]
    show parentIter n ⟨p.parts.dropLast, p.is_absolute⟩ = _
    rw [ih ⟨p.parts.dropLast, p.is_absolute⟩ hinv hlen3]
    rw [show (S3Path.mk p.parts.dropLast p.is_absolute).parts.take 1 =
      p.parts.take 1 from take_one_dropLast _ hlen2]

/-- C6: a single-segment path (relative, or an absolute bucket-only
path) has no parent; a path with at least two segments has a parent with
the same `is_absolute` flag and the last segment dropped; and iterating
`parent` exactly `N - 1` times from an `N`-segment path reaches a
single-segment path.  The hypothesis `reachInvB` restricts the statement
to the values the library can actually construct (for absolute paths the
first segment never begins with `s`, `3`, `:` or `/`). -/
theorem parent_spec (p : S3Path) (hp : reachInvB p = true) :
    (p.parts.length = 1 → S3Path.parent p = .ok none) ∧
    (2 ≤ p.parts.length →
      S3Path.parent p = .ok (some ⟨p.parts.dropLast, p.is_absolute⟩)) ∧
    parentIter (p.parts.length - 1) p =
      .ok (some ⟨p.parts.take 1, p.is_absolute⟩) ∧
    (p.parts.take 1).length = 1 := by
  have hne : p.parts ≠ [] := (validate_dest _ (reach_dest p hp).1).1
  have hlen1 : 1 ≤ p.parts.length := by
    cases hq : p.parts with
    | nil => exact absurd hq hne
    | cons a t => simp
  refine ⟨?_, ?_, ?_, ?_⟩
  · intro h1
    unfold S3Path.parent
    rw [if_pos h1]
  · exact fun h2 => parent_drop p hp h2
  · exact parentIter_aux (p.parts.length - 1) p hp (by omega)
  · cases hq : p.parts with
    | nil => exact absurd hq hne
    | cons a t => rfl

/-- Witness for C6 at the absolute path `s3://bucket/a/b`. -/
theorem parent_spec_wit :
    S3Path.parent ⟨[str "bucket", str "a", str "b"], true⟩ =
      .ok (some ⟨[str "bucket", str "a"], true⟩) ∧
    parentIter 2 ⟨[str "bucket", str "a", str "b"], true⟩ =
      .ok (some ⟨[str "bucket"], true⟩) := by
  have h := parent_spec ⟨[str "bucket", str "a", str "b"], true⟩ (by decide)
  exact ⟨by simpa using h.2.1 (by decide), by simpa using h.2.2.1⟩

/-! ### Claim C7 -/

/-- C7: joining an absolute `S3Path` value onto any path raises
`ValueError` (the cannot-append-absolute error); no path value is
produced. -/
theorem truediv_absolute_raises (p q : S3Path) (hq : q.is_absolute = true) :
    S3Path.truediv_path p q = .error .valueError := by
  unfold S3Path.truediv_path
  rw [hq]
  simp

/-- Witness for C7 at a concrete pair of paths. -/
theorem truediv_absolute_raises_wit :
    S3Path.truediv_path ⟨[str "bucket"], false⟩ ⟨[str "other"], true⟩ =
      .error .valueError :=
  truediv_absolute_raises ⟨[str "bucket"], false⟩ ⟨[str "other"], true⟩ rfl

/-! ### Claim C8 -/

/-- C8: for every string that parses successfully, rendering the parsed
path back to a string and re-parsing yields the very same path, so
`parse(toString(parse(text))) == parse(text)`. -/
theorem parse_repr_roundtrip (t : PyStr) (p : S3Path) (h : parsePath t = .ok p) :
    parsePath (S3Path.s3repr p) = .ok p := by
  have hp := parsePath_inv t p h
  obtain ⟨hv, habs⟩ := reach_dest p hp
  cases p with
  | mk P a =>
    unfold S3Path.s3repr
    exact parse_render P a hv (fun ha => (habs ha).1) (fun ha => (habs ha).2)

/-- Witness for C8 at `"s3://bucket/x"`. -/
theorem parse_repr_roundtrip_wit :
    parsePath (S3Path.s3repr ⟨[str "bucket", str "x"], true⟩) =
      .ok ⟨[str "bucket", str "x"], true⟩ :=
  parse_repr_roundtrip (str "s3://bucket/x") ⟨[str "bucket", str "x"], true⟩
    (by decide)

/-! ### Claim C9 -/

theorem validate_append (A B : List PyStr)
    (hA : _validate_parts A = true) (hB : _validate_parts B = true) :
    _validate_parts (A ++ B) = true := by
  unfold _validate_parts at hA hB ⊢
  rw [Bool.and_eq_true] at hA hB ⊢
  constructor
  · cases A with
    | nil => simpa using hA.1
    | cons a t => rfl
  · rw [List.all_append, hA.2, hB.2]
    rfl

theorem headD_append (A B : List PyStr) (h : A ≠ []) :
    (A ++ B).headD [] = A.headD [] := by
  cases A with
  | nil => exact absurd rfl h
  | cons a t => rfl

/-- C9: joining a STRING whose slash-stripped form parses as an absolute
path (e.g. `"s3://other/x"`) does not raise the cannot-append-absolute
`ValueError`: the string branch of `__truediv__` never checks the parsed
fragment's flag, so the result is a path whose segments are `p.parts`
followed by the fragment's segments (the other bucket becomes an
ordinary segment) and whose `is_absolute` equals `p.is_absolute`. -/
theorem truediv_str_absolute_ok (p : S3Path) (s : PyStr) (q : S3Path)
    (hp : reachInvB p = true)
    (hq : parsePath (pyLstripChars ['/'] s) = .ok q)
    (_hqa : q.is_absolute = true) :
    S3Path.truediv_str p s = .ok ⟨p.parts ++ q.parts, p.is_absolute⟩ := by
  obtain ⟨hv, habs⟩ := reach_dest p hp
  have hqv : _validate_parts q.parts = true :=
    (reach_dest q (parsePath_inv _ _ hq)).1
  have hne : p.parts ≠ [] := (validate_dest _ hv).1
  unfold S3Path.truediv_str
  rw [hq]
  show S3Path.from_parts (p.parts ++ q.parts) p.is_absolute = _
  exact from_parts_eq (p.parts ++ q.parts) p.is_absolute
    (validate_append _ _ hv hqv)
    (fun ha => by rw [headD_append _ _ hne]; exact (habs ha).1)
    (fun ha => by rw [headD_append _ _ hne]; exact (habs ha).2)

/-- Witness for C9: `parse("bucket/folder") / "s3://other/x"` succeeds
with the other bucket demoted to an ordinary segment. -/
theorem truediv_str_absolute_ok_wit :
    S3Path.truediv_str ⟨[str "bucket", str "folder"], false⟩ (str "s3://other/x") =
      .ok ⟨[str "bucket", str "folder"] ++ [str "other", str "x"], false⟩ :=
  truediv_str_absolute_ok ⟨[str "bucket", str "folder"], false⟩
    (str "s3://other/x") ⟨[str "other", str "x"], true⟩ (by decide) (by decide)
    rfl

/-! ### Claim C10 -/

/-- C10: comparing a path for equality with a string that does not parse
raises the parsing error (`InvalidPathError`, or `InvalidBucketError`
for an absolute string with an invalid bucket) instead of returning
`False` — `__eq__` parses the string first and lets the exception
propagate. -/
theorem eq_str_invalid_raises (p : S3Path) (s : PyStr) (e : S3Error)
    (h : parsePath s = .error e) : S3Path.eqStr p s = .error e := by
  unfold S3Path.eqStr
  rw [h]
  rfl

/-- Witness for C10 at the invalid string `"/x"`. -/
theorem eq_str_invalid_raises_wit :
    S3Path.eqStr ⟨[str "b"], false⟩ (str "/x") = .error .invalidPath :=
  eq_str_invalid_raises ⟨[str "b"], false⟩ (str "/x") .invalidPath (by decide)
